import Mathlib

/-!
Verification of the SchlundTech DNS gateway client and its generic XML codec.

The development shallowly embeds `certbot_dns_schlundtech/dns_schlundtech.py`:

* `PyVal` models the untyped Python values the codec moves around
  (`None`, `str`, `int`, `list`, `dict`, objects exposing an attribute
  dictionary, and a catch-all for values no branch of the marshaller accepts,
  abstracted by their repr string).
* `XmlEl` models an `xml.etree.ElementTree` element: a tag, an optional text,
  and a list of child elements.
* `marshal` / `_marshal_value` and `unmarshal` embed the `_XML` class.
* `_strip_domain`, `_current_value`, `add_txt_record`, `del_txt_record` and
  the response handling of `_call` embed `_SchlundtechGatewayClient`.
  Transport is abstracted: the gateway is a function from the issued task
  value to the unmarshalled reply, and each operation returns its outcome
  together with the list of zone-update tasks it issued.
-/

/-- An untyped Python value as used by the codec and the client.
`obj` is a Python object exposing `__dict__` (marshalled from its attribute
dictionary); `other` abstracts any remaining Python value by its repr.
Float scalars are not modelled: their `str()` rendering has no exact
arithmetic semantics here, and the client only ever sends string and int
scalars; `int` stands for the numeric scalar case. -/
inductive PyVal where
  | null
  | str (s : String)
  | int (n : Int)
  | list (xs : List PyVal)
  | dict (kvs : List (String × PyVal))
  | obj (kvs : List (String × PyVal))
  | other (r : String)

/-- An ElementTree XML element: tag, optional text, children. -/
inductive XmlEl where
  | el (tag : String) (text : Option String) (children : List XmlEl)

def XmlEl.tag : XmlEl → String
  | .el t _ _ => t

def XmlEl.text : XmlEl → Option String
  | .el _ t _ => t

def XmlEl.children : XmlEl → List XmlEl
  | .el _ _ cs => cs

/-- Whether `pat` occurs as a contiguous sublist of `l`
(Python's `pat in s` substring test for nonempty `pat`). -/
def occursIn (pat : List Char) : List Char → Bool
  | [] => List.isPrefixOf pat []
  | c :: rest => List.isPrefixOf pat (c :: rest) || occursIn pat rest

/-- Python's `s.replace(pat, '')` on character lists: remove every
non-overlapping occurrence of `pat`, scanning left to right. The fuel
argument only drives structural recursion; one unit is spent per removed
character (at least one per step), so any fuel at least the list's length
is enough. -/
def replaceAllEmptyFuel (pat : List Char) : Nat → List Char → List Char
  | _, [] => []
  | 0, l => l
  | fuel + 1, c :: rest =>
      if List.isPrefixOf pat (c :: rest) then
        replaceAllEmptyFuel pat fuel (List.drop (pat.length - 1) rest)
      else
        c :: replaceAllEmptyFuel pat fuel rest

def replaceAllEmpty (pat l : List Char) : List Char :=
  replaceAllEmptyFuel pat l.length l

/-- `_SchlundtechGatewayClient._strip_domain`:
`validation_name.replace('.' + domain, '') if validation_name.endswith(domain)
else validation_name`. -/
def _strip_domain (domain validation_name : String) : String :=
  if List.isSuffixOf domain.data validation_name.data then
    String.mk (replaceAllEmpty ('.' :: domain.data) validation_name.data)
  else validation_name

/-- Python's `str(n)` for an `int`. -/
def intStr (n : Int) : String := toString n

mutual
/-- `_XML._marshal_value(e, tag, value)`: the list of child elements the call
appends to `e` (or the serialization error it raises). -/
def _marshal_value (tag : String) : PyVal → Except String (List XmlEl)
  | .null => .ok []
  | .str s => .ok [.el tag (some s) []]
  | .int n => .ok [.el tag (some (intStr n)) []]
  | .list xs => mvList tag xs
  | .dict kvs =>
      match mvEntries kvs with
      | .error e => .error e
      | .ok ch => .ok [.el tag none ch]
  | .obj kvs =>
      match mvEntries kvs with
      | .error e => .error e
      | .ok ch => .ok [.el tag none ch]
  | .other r => .error ("Unable to serialize " ++ tag ++ "=" ++ r)

/-- The elements produced for the items of a `list` value (one
`_marshal_value` call per item, same tag, outputs concatenated). -/
def mvList (tag : String) : List PyVal → Except String (List XmlEl)
  | [] => .ok []
  | x :: rest =>
      match _marshal_value tag x with
      | .error e => .error e
      | .ok els =>
          match mvList tag rest with
          | .error e => .error e
          | .ok more => .ok (els ++ more)

/-- The children of `_XML.marshal(tag, data)`: fold `_marshal_value` over the
entries of `data` in insertion order, concatenating the produced elements. -/
def mvEntries : List (String × PyVal) → Except String (List XmlEl)
  | [] => .ok []
  | (k, v) :: rest =>
      match _marshal_value k v with
      | .error e => .error e
      | .ok els =>
          match mvEntries rest with
          | .error e => .error e
          | .ok more => .ok (els ++ more)
end

/-- `_XML.marshal(tag, data)`. -/
def marshal (tag : String) (kvs : List (String × PyVal)) : Except String XmlEl :=
  match mvEntries kvs with
  | .error e => .error e
  | .ok ch => .ok (.el tag none ch)

/-- Sequence a list of marshalling results, concatenating the elements
(first error wins). Used to characterize `mvList`. -/
def joinEm : List (Except String (List XmlEl)) → Except String (List XmlEl)
  | [] => .ok []
  | r :: rest =>
      match r with
      | .error e => .error e
      | .ok els =>
          match joinEm rest with
          | .error e => .error e
          | .ok more => .ok (els ++ more)

/-- The collapsing rule applied to an existing entry: a list is appended to
in place, anything else is first wrapped in a one-element list. -/
def collapseStep (w value : PyVal) : PyVal :=
  match w with
  | .list l => .list (l ++ [value])
  | _ => .list [w, value]

/-- One step of `unmarshal`'s dict building: Python's
`result[name] = value` / list-collapsing update on an insertion-ordered
dict represented as an association list with unique keys. -/
def insertChild (result : List (String × PyVal)) (name : String) (value : PyVal) :
    List (String × PyVal) :=
  match List.lookup name result with
  | some w =>
      result.map (fun kv => if kv.1 = name then (name, collapseStep w value) else kv)
  | none => result ++ [(name, value)]

mutual
/-- `_XML.unmarshal(e)`: the element's text if it is not `None`, else `None`
for a childless element, else the dict built by folding the children. -/
def unmarshal : XmlEl → PyVal
  | .el _ (some t) _ => .str t
  | .el _ none [] => .null
  | .el _ none (c :: cs) => .dict (unmarshalFold (insertChild [] c.tag (unmarshal c)) cs)

/-- The child-folding loop of `unmarshal`. -/
def unmarshalFold (acc : List (String × PyVal)) : List XmlEl → List (String × PyVal)
  | [] => acc
  | c :: cs => unmarshalFold (insertChild acc c.tag (unmarshal c)) cs
end

/-- Tag-group collapsing: a one-element group is the bare value, any other
group is a list. -/
def collapsePy : List PyVal → PyVal
  | [v] => v
  | vs => .list vs

/-- The distinct child tags of an element in first-occurrence order
(Python dict insertion order). -/
def keysInOrder : List XmlEl → List String
  | [] => []
  | c :: cs => c.tag :: (keysInOrder cs).filter (fun s => s != c.tag)

def tagMatches (t : String) (c : XmlEl) : Bool := c.tag == t

/-- The value a tag receives in the unmarshalled dict: the collapse of the
unmarshalled same-tag children in document order. -/
def groupVal (cs : List XmlEl) (t : String) : PyVal :=
  collapsePy ((cs.filter (tagMatches t)).map unmarshal)

/-- The specification-side characterization of the dict `unmarshal` builds
from a child list. -/
def groupDict (cs : List XmlEl) : List (String × PyVal) :=
  (keysInOrder cs).map (fun t => (t, groupVal cs t))

mutual
/-- The shape invariant of values produced by `unmarshal` (on elements
without empty-string texts): a non-empty scalar, the null no-value, a
non-empty list, or a dict with at least one entry, all recursively. -/
def producedOK : PyVal → Bool
  | .str s => !s.isEmpty
  | .null => true
  | .list xs => !xs.isEmpty && producedOKList xs
  | .dict kvs => !kvs.isEmpty && producedOKFields kvs
  | .int _ => false
  | .obj _ => false
  | .other _ => false

def producedOKList : List PyVal → Bool
  | [] => true
  | v :: r => producedOK v && producedOKList r

def producedOKFields : List (String × PyVal) → Bool
  | [] => true
  | (_, v) :: r => producedOK v && producedOKFields r
end

mutual
/-- No element of the tree carries an empty-string text (ElementTree parsing
represents a textless element by `None`, never by `''`). -/
def noEmptyText : XmlEl → Bool
  | .el _ t cs => (t != some "") && noEmptyTextList cs

def noEmptyTextList : List XmlEl → Bool
  | [] => true
  | c :: r => noEmptyText c && noEmptyTextList r
end

mutual
/-- The value a marshallable field reads back as after a marshal/unmarshal
round trip, `none` when the field leaves no trace on the wire. -/
def stripVal : PyVal → Option PyVal
  | .null => none
  | .str s => some (.str s)
  | .int n => some (.str (intStr n))
  | .list [] => none
  | .list (x :: r) => some (collapsePy (stripList (x :: r)))
  | .dict kvs =>
      some (match strippedFields kvs with
        | [] => PyVal.null
        | fs => PyVal.dict fs)
  | .obj kvs =>
      some (match strippedFields kvs with
        | [] => PyVal.null
        | fs => PyVal.dict fs)
  | .other _ => none

/-- Round-trip images of list items, absent items dropped. -/
def stripList : List PyVal → List PyVal
  | [] => []
  | x :: r =>
      (match stripVal x with
        | none => []
        | some w => [w]) ++ stripList r

/-- Round-trip images of dict fields, traceless fields dropped. -/
def strippedFields : List (String × PyVal) → List (String × PyVal)
  | [] => []
  | (k, v) :: r =>
      (match stripVal v with
        | none => []
        | some w => [(k, w)]) ++ strippedFields r
end

/-- The value `unmarshal` recovers from the element `marshal` builds for a
dict: null when no field leaves a trace, else the dict of surviving fields. -/
def dictImage (kvs : List (String × PyVal)) : PyVal :=
  match strippedFields kvs with
  | [] => .null
  | fs => .dict fs

/-- The unmarshalled images, in order, of the sibling elements
`_marshal_value` emits for one value. -/
def imageElems : PyVal → List PyVal
  | .list xs => stripList xs
  | v =>
      match stripVal v with
      | none => []
      | some w => [w]

def nodupStr : List String → Bool
  | [] => true
  | k :: r => !(r.contains k) && nodupStr r

def nodupKeys (kvs : List (String × PyVal)) : Bool := nodupStr (kvs.map Prod.fst)

/-- Python `value is None`. -/
def isNull : PyVal → Bool
  | .null => true
  | _ => false

mutual
/-- Values for which the round trip is exact up to the collapsing rule:
strings, ints, non-empty lists of regular non-null non-list items, and
dicts with unique keys whose values are null or regular. -/
def regularVal : PyVal → Bool
  | .str _ => true
  | .int _ => true
  | .list xs => !xs.isEmpty && regularItems xs
  | .dict kvs => nodupKeys kvs && regularFields kvs
  | _ => false

def regularItem : PyVal → Bool
  | .str _ => true
  | .int _ => true
  | .dict kvs => nodupKeys kvs && regularFields kvs
  | _ => false

def regularItems : List PyVal → Bool
  | [] => true
  | x :: r => regularItem x && regularItems r

def regularFields : List (String × PyVal) → Bool
  | [] => true
  | (_, v) :: r => (isNull v || regularVal v) && regularFields r
end

/-- Python subscripting `v[k]` with a string key: a dict lookup, `KeyError`
when the key is missing, `TypeError` on any non-dict value. -/
def getItem : PyVal → String → Except String PyVal
  | .dict kvs, k =>
      match List.lookup k kvs with
      | some v => .ok v
      | none => .error "KeyError"
  | _, _ => .error "TypeError"

/-- Membership of the string `k` in a Python list (cross-type equality with a
string is false, so only `str` elements can match). -/
def strMember (k : String) (xs : List PyVal) : Bool :=
  xs.any (fun x =>
    match x with
    | .str s => s == k
    | _ => false)

/-- Python's `k in v` for a string `k`: key test on dicts, substring test on
strings, membership on lists, `TypeError` otherwise. -/
def pyIn (k : String) : PyVal → Except String Bool
  | .dict kvs => .ok (List.lookup k kvs).isSome
  | .str s => .ok (occursIn k.data s.data)
  | .list xs => .ok (strMember k xs)
  | _ => .error "TypeError"

/-- Python `v == s` for a string literal `s`: true only for an equal `str`. -/
def pyEqStr : PyVal → String → Bool
  | .str s, t => s == t
  | _, _ => false

/-- The record scan of `_current_value`: first record whose `name` equals the
relative name and whose `value` differs from the validation value. -/
def scanRR (relName validation : String) : List PyVal → Except String (Option PyVal)
  | [] => .ok none
  | rr :: rest =>
      match getItem rr "name" with
      | .error k => .error k
      | .ok nm =>
          if pyEqStr nm relName then
            match getItem rr "value" with
            | .error k => .error k
            | .ok w =>
                if pyEqStr w validation then scanRR relName validation rest
                else .ok (some w)
          else scanRR relName validation rest

/-- The single-record normalization of `_current_value`
(`if type(info['rr']) != list: info['rr'] = [info['rr']]`). -/
def pyAsList : PyVal → List PyVal
  | .list l => l
  | v => [v]

/-- `_SchlundtechGatewayClient._current_value(info, domain, validation_name,
validation)`; Python exceptions surface as `.error`. -/
def _current_value (info : PyVal) (domain validation_name validation : String) :
    Except String (Option PyVal) :=
  match pyIn "rr" info with
  | .error k => .error k
  | .ok false => .ok none
  | .ok true =>
      match getItem info "rr" with
      | .error k => .error k
      | .ok rrv => scanRR (_strip_domain domain validation_name) validation (pyAsList rrv)

/-- Outcome of an add/del operation: success, the two distinct
`errors.PluginError` raises, or an uncaught Python exception. -/
inductive TxtOutcome where
  | ok
  | conflictError (msg : String)
  | recordUpdateError (msg : String)
  | crash (kind : String)

/-- The shared result check of `add_txt_record`/`del_txt_record`
(lines 160-166 and 185-191): require `result['status']['type'] == 'success'`,
else raise with the provider's status text appended when present. -/
def update_check (base : String) (result : Option PyVal) : TxtOutcome :=
  match result with
  | none => .recordUpdateError base
  | some r =>
      match getItem r "status" with
      | .error k => .crash k
      | .ok st =>
          match getItem st "type" with
          | .error k => .crash k
          | .ok ty =>
              if pyEqStr ty "success" then .ok
              else
                match pyIn "text" st with
                | .error k => .crash k
                | .ok false => .recordUpdateError base
                | .ok true =>
                    match getItem st "text" with
                    | .error k => .crash k
                    | .ok (.str txt) => .recordUpdateError (base ++ "\n" ++ txt)
                    | .ok _ => .crash "TypeError"

/-- `add_txt_record` after the zone lookup returned `info`: the gateway is a
function from the issued `0202001` task to the `_call` result; the second
component collects the zone-update tasks actually issued. -/
def add_txt_record (gateway : PyVal → Option PyVal)
    (domain validation_name validation : String) (ttl : Int) (info : PyVal) :
    TxtOutcome × List PyVal :=
  match _current_value info domain validation_name validation with
  | .error k => (.crash k, [])
  | .ok (some cv) =>
      if pyEqStr cv validation then (.ok, [])
      else
        (.conflictError ("TXT record " ++ validation_name ++ " for " ++ domain ++
          " already exists with different value"), [])
  | .ok none =>
      match getItem info "system_ns" with
      | .error k => (.crash k, [])
      | .ok sns =>
          match getItem info "soa" with
          | .error k => (.crash k, [])
          | .ok soa =>
              let task := PyVal.dict [("code", .str "0202001"),
                ("zone", .dict [("name", .str domain), ("system_ns", sns)]),
                ("default", .dict [
                  ("rr_add", .dict [("name", .str (_strip_domain domain validation_name)),
                    ("type", .str "TXT"), ("value", .str validation), ("ttl", .int ttl)]),
                  ("soa", soa)])]
              (update_check ("Unable to add TXT record for " ++ domain ++ ": " ++
                validation_name) (gateway task), [task])

/-- `del_txt_record` after the zone lookup returned `info`. -/
def del_txt_record (gateway : PyVal → Option PyVal)
    (domain validation_name validation : String) (ttl : Int) (info : PyVal) :
    TxtOutcome × List PyVal :=
  match getItem info "system_ns" with
  | .error k => (.crash k, [])
  | .ok sns =>
      let task := PyVal.dict [("code", .str "0202001"),
        ("zone", .dict [("name", .str domain), ("system_ns", sns)]),
        ("default", .dict [
          ("rr_rem", .dict [("name", .str (_strip_domain domain validation_name)),
            ("type", .str "TXT"), ("value", .str validation), ("ttl", .int ttl)])])]
      (update_check ("Unable to remove TXT record for " ++ domain ++ ": " ++
        validation_name) (gateway task), [task])

/-- Iterated collapsing update: the value a dict entry holds after absorbing
further same-tag children one by one. -/
def extendVal (w : PyVal) : List PyVal → PyVal
  | [] => w
  | v :: vs => extendVal (collapseStep w v) vs

/-- Outcome of `_call`'s response handling on transport success. -/
inductive CallResult where
  | ok (result : PyVal)
  | protocolError (reprIncluded : Bool)
  | crash (kind : String)

/-- Lines 96-104 of `_call`: given the unmarshalled response body, return the
`result` field when present and not `None`, else raise the protocol error
(`reprIncluded` records whether the repr of the response is appended);
a non-`None` response without a `result` key raises an uncaught `KeyError`,
a scalar response an uncaught `TypeError`. -/
def call_handle_response : PyVal → CallResult
  | .null => .protocolError false
  | .dict kvs =>
      match List.lookup "result" kvs with
      | none => .crash "KeyError"
      | some .null => .protocolError true
      | some v => .ok v
  | _ => .crash "TypeError"

/-! ## General helper lemmas -/

@[simp] theorem XmlEl.tag_el (t : String) (txt : Option String) (cs : List XmlEl) :
    (XmlEl.el t txt cs).tag = t := rfl

theorem lookup_none_iff (k : String) :
    ∀ l : List (String × PyVal), List.lookup k l = none ↔ ∀ p ∈ l, p.1 ≠ k := by
  intro l
  induction l with
  | nil => simp
  | cons p rest ih =>
      obtain ⟨k', v⟩ := p
      by_cases h : k = k'
      · subst h
        constructor
        · intro hl
          simp [List.lookup] at hl
        · intro hall
          exact absurd rfl (hall (k, v) (by simp))
      · rw [List.lookup, beq_false_of_ne h]
        rw [ih]
        constructor
        · intro hall
          intro p hp
          rcases List.mem_cons.mp hp with h1 | h2
          · rw [h1]
            exact fun hc => h hc.symm
          · exact hall p h2
        · intro hall p hp
          exact hall p (List.mem_cons_of_mem _ hp)

theorem lookup_append_left (k : String) (l1 l2 : List (String × PyVal)) (v : PyVal)
    (h : List.lookup k l1 = some v) :
    List.lookup k (l1 ++ l2) = some v := by
  induction l1 with
  | nil => simp [List.lookup] at h
  | cons p rest ih =>
      obtain ⟨k', w⟩ := p
      by_cases hk : k = k'
      · subst hk
        simp [List.lookup] at h ⊢
        exact h
      · rw [List.lookup, beq_false_of_ne hk] at h
        rw [List.cons_append, List.lookup, beq_false_of_ne hk]
        exact ih h

theorem lookup_append_none (k : String) (l1 l2 : List (String × PyVal))
    (h : List.lookup k l1 = none) :
    List.lookup k (l1 ++ l2) = List.lookup k l2 := by
  induction l1 with
  | nil => simp
  | cons p rest ih =>
      obtain ⟨k', w⟩ := p
      by_cases hk : k = k'
      · subst hk
        simp [List.lookup] at h
      · rw [List.lookup, beq_false_of_ne hk] at h
        rw [List.cons_append, List.lookup, beq_false_of_ne hk]
        exact ih h

/-! ## `_strip_domain` (claim C2) -/

theorem replaceAllEmptyFuel_nil (pat : List Char) (fuel : Nat) :
    replaceAllEmptyFuel pat fuel [] = [] := by
  cases fuel <;> rfl

theorem replaceAllEmptyFuel_not_occurs (pat : List Char) :
    ∀ (fuel : Nat) (l : List Char), occursIn pat l = false →
      replaceAllEmptyFuel pat fuel l = l := by
  intro fuel
  induction fuel with
  | zero => intro l _; cases l <;> rfl
  | succ m ih =>
      intro l h
      cases l with
      | nil => rfl
      | cons c rest =>
          rw [occursIn] at h
          simp only [Bool.or_eq_false_iff] at h
          simp [replaceAllEmptyFuel, h.1, ih rest h.2]

theorem replaceAllEmptyFuel_single (pat : List Char) (hne : pat ≠ []) :
    ∀ (p : List Char) (fuel : Nat), (p ++ pat).length ≤ fuel →
      (∀ i, i < p.length → List.isPrefixOf pat (List.drop i (p ++ pat)) = false) →
      replaceAllEmptyFuel pat fuel (p ++ pat) = p := by
  intro p
  induction p with
  | nil =>
      intro fuel hf _
      obtain ⟨a, as, rfl⟩ : ∃ a as, pat = a :: as := by
        cases pat with
        | nil => exact absurd rfl hne
        | cons a as => exact ⟨a, as, rfl⟩
      obtain ⟨f, rfl⟩ : ∃ f, fuel = f + 1 := by
        refine ⟨fuel - 1, ?_⟩
        simp at hf
        omega
      have hpre : List.isPrefixOf (a :: as) (List.nil ++ a :: as) = true := by
        rw [List.isPrefixOf_iff_prefix]
        simp
      simp only [List.nil_append] at hpre ⊢
      rw [replaceAllEmptyFuel, if_pos hpre]
      have hdrop : List.drop ((a :: as).length - 1) as = [] := by simp
      rw [hdrop, replaceAllEmptyFuel_nil]
  | cons c p' ih =>
      intro fuel hf h
      obtain ⟨f, rfl⟩ : ∃ f, fuel = f + 1 := by
        refine ⟨fuel - 1, ?_⟩
        simp at hf
        omega
      have h0 := h 0 (by simp)
      simp only [List.drop_zero, List.cons_append] at h0
      rw [List.cons_append, replaceAllEmptyFuel, if_neg (by simp [h0])]
      have hrec := ih f (by simp at hf ⊢; omega) (fun i hi => by
        have := h (i + 1) (by simp; omega)
        simpa [List.cons_append] using this)
      rw [hrec]

/-- C2 (amended): `_strip_domain` uses Python's `str.replace`, which removes
every non-overlapping occurrence of `"." ++ domain`, not only a trailing one.
Hence: (1) if `"." ++ domain` does not occur in `fqdn` at all — in particular
when `fqdn` ends in `domain` without a separating dot, or does not end in
`domain` — the name is returned unchanged; (2) if `fqdn` ends with the literal
suffix `"." ++ domain` and `"." ++ domain` occurs nowhere earlier, the portion
before that suffix is returned. -/
theorem strip_domain_spec :
    (∀ domain fqdn : String, occursIn ('.' :: domain.data) fqdn.data = false →
      _strip_domain domain fqdn = fqdn) ∧
    (∀ (domain : String) (p : List Char),
      (∀ i, i < p.length →
        List.isPrefixOf ('.' :: domain.data) (List.drop i (p ++ '.' :: domain.data)) = false) →
      _strip_domain domain (String.mk (p ++ '.' :: domain.data)) = String.mk p) := by
  constructor
  · intro domain fqdn h
    unfold _strip_domain
    split
    · rw [replaceAllEmpty, replaceAllEmptyFuel_not_occurs _ _ _ h]
    · rfl
  · intro domain p h
    have hsuf : List.isSuffixOf domain.data (String.mk (p ++ '.' :: domain.data)).data = true := by
      rw [List.isSuffixOf_iff_suffix]
      exact ⟨p ++ ['.'], by simp⟩
    unfold _strip_domain
    rw [if_pos hsuf]
    exact congrArg String.mk
      (replaceAllEmptyFuel_single ('.' :: domain.data) (by simp) p _ le_rfl h)

/-- C2 witness: the characterization applied to the two concrete cases of the
specification: the usual challenge name is stripped to its relative part, and
a name ending in the domain without a separating dot is left unchanged. -/
theorem strip_domain_spec_witness :
    _strip_domain "example.com" "_acme-challenge.example.com" = "_acme-challenge" ∧
    _strip_domain "example.com" "notexample.com" = "notexample.com" := by
  constructor
  · exact strip_domain_spec.2 "example.com" "_acme-challenge".data (by decide)
  · exact strip_domain_spec.1 "example.com" "notexample.com" (by decide)

/-- C2 counterexample: when `"." ++ domain` also occurs before the trailing
suffix, `_strip_domain` removes that occurrence too, so the result is not the
portion of the name before the trailing suffix (which would be
`"a.example.com"`). -/
theorem strip_domain_multiple_occurrence :
    _strip_domain "example.com" "a.example.com.example.com" = "a" ∧
    ("a" : String) ≠ "a.example.com" := by
  exact ⟨by decide, by decide⟩

/-- C10: a field whose value is the empty list emits no element at all, so it
is indistinguishable on the wire from a null (absent) field: `marshal` yields
the same document either way, and a subsequent `unmarshal` does not reproduce
the field, as the concrete document shows. -/
theorem marshal_empty_list_no_element :
    (∀ tag : String, _marshal_value tag (.list []) = .ok []) ∧
    (∀ (tag name : String) (kvs1 kvs2 : List (String × PyVal)),
      marshal tag (kvs1 ++ (name, .list []) :: kvs2) =
        marshal tag (kvs1 ++ (name, .null) :: kvs2)) ∧
    (marshal "x" [("a", .list []), ("b", .str "y")] =
        .ok (.el "x" none [.el "b" (some "y") []]) ∧
      unmarshal (.el "x" none [.el "b" (some "y") []]) = .dict [("b", .str "y")]) := by
  refine ⟨fun tag => rfl, ?_, rfl, rfl⟩
  intro tag name kvs1 kvs2
  have hm : ∀ kvs1 : List (String × PyVal),
      mvEntries (kvs1 ++ (name, PyVal.list []) :: kvs2) =
        mvEntries (kvs1 ++ (name, PyVal.null) :: kvs2) := by
    intro kvs1
    induction kvs1 with
    | nil => simp [mvEntries, _marshal_value, mvList]
    | cons p rest ih =>
        obtain ⟨k, v⟩ := p
        rw [List.cons_append, List.cons_append, mvEntries, mvEntries, ih]
  unfold marshal
  rw [hm]

/-- C1 (code divergence): with a zone whose `rr` set already carries the TXT
record `_acme-challenge` with exactly the requested value `TOKEN`,
`add_txt_record` nevertheless issues a `0202001` zone-update task carrying an
`rr_add` for that same record: `_current_value` only reports records whose
value differs, so the identical-value branch can never be taken and the
operation is not the no-op the specification requires. -/
theorem add_txt_record_existing_identical_value_issues_update :
    add_txt_record (fun _ => some (.dict [("status", .dict [("type", .str "success")])]))
      "example.com" "_acme-challenge.example.com" "TOKEN" 60
      (.dict [("rr", .dict [("name", .str "_acme-challenge"), ("type", .str "TXT"),
        ("value", .str "TOKEN"), ("ttl", .str "60")]),
        ("system_ns", .str "a.ns.de"), ("soa", .null)]) =
    (.ok, [PyVal.dict [("code", .str "0202001"),
      ("zone", .dict [("name", .str "example.com"), ("system_ns", .str "a.ns.de")]),
      ("default", .dict [("rr_add", .dict [("name", .str "_acme-challenge"),
        ("type", .str "TXT"), ("value", .str "TOKEN"), ("ttl", .int 60)]),
        ("soa", .null)])]]) := by
  rfl

/-- C6 (amended): on transport success, a `None` (absent) unmarshalled
response body, or a response whose `result` field is present but `None` (an
empty `result` element), makes `_call` raise the protocol error; a present,
non-`None` `result` is returned. (A response map without any `result` key
instead raises an uncaught `KeyError`, see the counterexample.) -/
theorem call_result_handling :
    (call_handle_response .null = .protocolError false) ∧
    (∀ kvs, List.lookup "result" kvs = some PyVal.null →
      call_handle_response (.dict kvs) = .protocolError true) ∧
    (∀ kvs v, List.lookup "result" kvs = some v → v ≠ PyVal.null →
      call_handle_response (.dict kvs) = .ok v) := by
  refine ⟨rfl, ?_, ?_⟩
  · intro kvs h
    rw [call_handle_response, h]
  · intro kvs v h hne
    rw [call_handle_response, h]
    cases v <;> first | rfl | exact absurd rfl hne

/-- C6 witness: the characterization applied to a null `result` field and to
a present one. -/
theorem call_result_handling_witness :
    call_handle_response (.dict [("result", .null)]) = .protocolError true ∧
    call_handle_response (.dict [("result", .dict [("status", .str "s")])]) =
      .ok (.dict [("status", .str "s")]) := by
  refine ⟨call_result_handling.2.1 _ rfl, call_result_handling.2.2 _ _ rfl ?_⟩
  intro h
  cases h

/-- C6 counterexample: a non-`None` response map that simply has no `result`
key makes `response['result']` raise an uncaught `KeyError` instead of the
protocol error the claim predicts. -/
theorem call_missing_result_key_crashes :
    call_handle_response (.dict [("foo", .str "x")]) = .crash "KeyError" := rfl

theorem mvList_eq_joinEm (tag : String) :
    ∀ xs : List PyVal, mvList tag xs = joinEm (xs.map (_marshal_value tag)) := by
  intro xs
  induction xs with
  | nil => rfl
  | cons x rest ih =>
      cases hmv : _marshal_value tag x with
      | error e => simp [mvList, joinEm, hmv]
      | ok els => simp [mvList, joinEm, hmv, ih]

/-- C9 (amended): the per-entry encoding of `_marshal_value`: a string or int
becomes one child element with the scalar's string form as text; `None`
emits nothing; a list emits one sibling element per item, each by the same
rule; a dict and likewise any object carrying an attribute dictionary become
one recursively marshalled child element; only a remaining value (one with no
attribute dictionary, e.g. a tuple) fails, with an error naming the field and
the value. -/
theorem marshal_value_shape_cases :
    (∀ tag s, _marshal_value tag (.str s) = .ok [.el tag (some s) []]) ∧
    (∀ tag n, _marshal_value tag (.int n) = .ok [.el tag (some (intStr n)) []]) ∧
    (∀ tag, _marshal_value tag .null = .ok []) ∧
    (∀ tag xs, _marshal_value tag (.list xs) = joinEm (xs.map (_marshal_value tag))) ∧
    (∀ tag kvs, _marshal_value tag (.dict kvs) = (marshal tag kvs).map (fun e => [e])) ∧
    (∀ tag kvs, _marshal_value tag (.obj kvs) = (marshal tag kvs).map (fun e => [e])) ∧
    (∀ tag r, _marshal_value tag (.other r) =
      .error ("Unable to serialize " ++ tag ++ "=" ++ r)) := by
  refine ⟨fun _ _ => rfl, fun _ _ => rfl, fun _ => rfl, mvList_eq_joinEm, ?_, ?_, fun _ _ => rfl⟩
  · intro tag kvs
    rw [_marshal_value, marshal]
    cases mvEntries kvs <;> rfl
  · intro tag kvs
    rw [_marshal_value, marshal]
    cases mvEntries kvs <;> rfl

/-- C9 counterexample: an object exposing an attribute dictionary is neither
a scalar, null, a list, nor a dict, yet `_marshal_value` does not fail on it:
it marshals the attribute dictionary as a nested element. -/
theorem marshal_value_obj_marshals :
    _marshal_value "a" (.obj [("x", .str "1")]) =
      .ok [.el "a" none [.el "x" (some "1") []]] := rfl

/-! ## Conflict detection (claim C3) -/

theorem scanRR_finds (relName v : String) :
    ∀ rrs : List PyVal,
      (∀ rr ∈ rrs, ∃ rm, rr = PyVal.dict rm ∧
        (List.lookup "name" rm).isSome ∧ (List.lookup "value" rm).isSome) →
      (∃ rr ∈ rrs, ∃ rm w, rr = PyVal.dict rm ∧
        List.lookup "name" rm = some (.str relName) ∧
        List.lookup "value" rm = some w ∧ pyEqStr w v = false) →
      ∃ w, scanRR relName v rrs = .ok (some w) ∧ pyEqStr w v = false := by
  intro rrs
  induction rrs with
  | nil =>
      intro _ hex
      simp at hex
  | cons rr rest ih =>
      intro hwf hex
      obtain ⟨rm, hrm, hn, hv⟩ := hwf rr (by simp)
      obtain ⟨nm, hnm⟩ := Option.isSome_iff_exists.mp hn
      obtain ⟨w0, hw0⟩ := Option.isSome_iff_exists.mp hv
      subst hrm
      have hgn : getItem (PyVal.dict rm) "name" = .ok nm := by rw [getItem, hnm]
      have hgv : getItem (PyVal.dict rm) "value" = .ok w0 := by rw [getItem, hw0]
      have hrest : ∀ rr ∈ rest, ∃ rm, rr = PyVal.dict rm ∧
          (List.lookup "name" rm).isSome ∧ (List.lookup "value" rm).isSome :=
        fun rr h => hwf rr (List.mem_cons_of_mem _ h)
      by_cases hname : pyEqStr nm relName = true
      · by_cases hval : pyEqStr w0 v = true
        · have hex' : ∃ rr ∈ rest, ∃ rm w, rr = PyVal.dict rm ∧
              List.lookup "name" rm = some (.str relName) ∧
              List.lookup "value" rm = some w ∧ pyEqStr w v = false := by
            obtain ⟨rr', hmem, rm', w', hrm', hn', hv', hne'⟩ := hex
            rcases List.mem_cons.mp hmem with heq | hmem'
            · exfalso
              have hrmeq : rm = rm' := PyVal.dict.inj (heq.symm.trans hrm')
              subst hrmeq
              rw [hv'] at hw0
              have hww : w' = w0 := Option.some.inj hw0
              rw [hww] at hne'
              simp [hval] at hne'
            · exact ⟨rr', hmem', rm', w', hrm', hn', hv', hne'⟩
          obtain ⟨w, hs, hw⟩ := ih hrest hex'
          refine ⟨w, ?_, hw⟩
          rw [scanRR, hgn]
          simp [hname, hgv, hval, hs]
        · refine ⟨w0, ?_, by simpa using hval⟩
          rw [scanRR, hgn]
          simp [hname, hgv, hval]
      · have hex' : ∃ rr ∈ rest, ∃ rm w, rr = PyVal.dict rm ∧
            List.lookup "name" rm = some (.str relName) ∧
            List.lookup "value" rm = some w ∧ pyEqStr w v = false := by
          obtain ⟨rr', hmem, rm', w', hrm', hn', hv', hne'⟩ := hex
          rcases List.mem_cons.mp hmem with heq | hmem'
          · exfalso
            have hrmeq : rm = rm' := PyVal.dict.inj (heq.symm.trans hrm')
            subst hrmeq
            rw [hn'] at hnm
            have hns : nm = PyVal.str relName := (Option.some.inj hnm).symm
            rw [hns] at hname
            exact hname (by simp [pyEqStr])
          · exact ⟨rr', hmem', rm', w', hrm', hn', hv', hne'⟩
        obtain ⟨w, hs, hw⟩ := ih hrest hex'
        refine ⟨w, ?_, hw⟩
        rw [scanRR, hgn]
        simp [hname, hs]

/-- C3: if the zone info carries (under `rr`, after normalizing a bare single
record to a one-element list) a resource record whose relative name equals
`_strip_domain domain recordName` and whose value differs from the requested
value, `add_txt_record` raises the conflict error and issues no zone-update
task; the existing record is never overwritten. The well-formedness
hypothesis only requires each scanned record to be a map carrying `name` and
`value` fields, as every gateway resource record does. -/
theorem add_txt_record_conflict :
    ∀ (g : PyVal → Option PyVal) (domain vn v : String) (ttl : Int)
      (kvs : List (String × PyVal)) (rrv : PyVal) (rrs : List PyVal),
      List.lookup "rr" kvs = some rrv →
      rrs = pyAsList rrv →
      (∀ rr ∈ rrs, ∃ rm, rr = PyVal.dict rm ∧
        (List.lookup "name" rm).isSome ∧ (List.lookup "value" rm).isSome) →
      (∃ rr ∈ rrs, ∃ rm w, rr = PyVal.dict rm ∧
        List.lookup "name" rm = some (.str (_strip_domain domain vn)) ∧
        List.lookup "value" rm = some w ∧ pyEqStr w v = false) →
      add_txt_record g domain vn v ttl (.dict kvs) =
        (.conflictError ("TXT record " ++ vn ++ " for " ++ domain ++
          " already exists with different value"), []) := by
  intro g domain vn v ttl kvs rrv rrs hlk hrrs hwf hex
  obtain ⟨w, hscan, hwne⟩ := scanRR_finds (_strip_domain domain vn) v rrs hwf hex
  have h1 : pyIn "rr" (PyVal.dict kvs) = .ok true := by
    rw [pyIn, hlk]
    rfl
  have hcv : _current_value (PyVal.dict kvs) domain vn v = .ok (some w) := by
    have h2 : getItem (PyVal.dict kvs) "rr" = .ok rrv := by rw [getItem, hlk]
    simp only [_current_value, h1, h2, ← hrrs, hscan]
  simp [add_txt_record, hcv, hwne]

/-- C3 witness: a zone carrying `_acme-challenge` with value `OTHER` makes
`add_txt_record` for value `TOKEN` fail with the conflict error, with no
update task issued. -/
theorem add_txt_record_conflict_witness :
    add_txt_record (fun _ => some (.dict [("status", .dict [("type", .str "success")])]))
      "example.com" "_acme-challenge.example.com" "TOKEN" 60
      (.dict [("rr", .dict [("name", .str "_acme-challenge"), ("value", .str "OTHER")]),
        ("system_ns", .str "a.ns.de"), ("soa", .null)]) =
      (.conflictError ("TXT record " ++ "_acme-challenge.example.com" ++ " for " ++
        "example.com" ++ " already exists with different value"), []) := by
  refine add_txt_record_conflict _ "example.com" "_acme-challenge.example.com" "TOKEN" 60
    [("rr", PyVal.dict [("name", .str "_acme-challenge"), ("value", .str "OTHER")]),
      ("system_ns", .str "a.ns.de"), ("soa", .null)]
    (PyVal.dict [("name", .str "_acme-challenge"), ("value", .str "OTHER")])
    [PyVal.dict [("name", .str "_acme-challenge"), ("value", .str "OTHER")]]
    rfl rfl ?_ ?_
  · intro rr hmem
    rw [List.mem_singleton] at hmem
    subst hmem
    exact ⟨_, rfl, rfl, rfl⟩
  · refine ⟨PyVal.dict [("name", .str "_acme-challenge"), ("value", .str "OTHER")],
      by simp, [("name", PyVal.str "_acme-challenge"), ("value", PyVal.str "OTHER")],
      .str "OTHER", rfl, rfl, rfl, rfl⟩

/-! ## Update failure handling (claim C8) -/

theorem update_check_failure (base : String) (r st : List (String × PyVal)) (ty : PyVal)
    (hst : List.lookup "status" r = some (.dict st))
    (hty : List.lookup "type" st = some ty)
    (hne : pyEqStr ty "success" = false) :
    (List.lookup "text" st = none →
      update_check base (some (.dict r)) = .recordUpdateError base) ∧
    (∀ txt, List.lookup "text" st = some (.str txt) →
      update_check base (some (.dict r)) = .recordUpdateError (base ++ "\n" ++ txt)) := by
  have h1 : getItem (PyVal.dict r) "status" = .ok (.dict st) := by rw [getItem, hst]
  have h2 : getItem (PyVal.dict st) "type" = .ok ty := by rw [getItem, hty]
  constructor
  · intro htext
    simp [update_check, h1, h2, hne, pyIn, htext]
  · intro txt htext
    have h3 : getItem (PyVal.dict st) "text" = .ok (.str txt) := by rw [getItem, htext]
    simp [update_check, h1, h2, hne, pyIn, htext, h3]

/-- C8: when the `0202001` zone-update call of an add or delete operation
returns a result whose `status.type` is not `"success"`, the operation raises
the record-update error, and when the status carries a `text` field that
provider text is part of the raised message (appended after a newline). The
zone info below carries no `rr`, so the add reaches its update branch. -/
theorem update_failure_record_update_error :
    ∀ (domain vn v : String) (ttl : Int) (sns soa : PyVal)
      (r st : List (String × PyVal)) (ty : PyVal),
      List.lookup "status" r = some (.dict st) →
      List.lookup "type" st = some ty →
      pyEqStr ty "success" = false →
      ((List.lookup "text" st = none →
        (add_txt_record (fun _ => some (.dict r)) domain vn v ttl
            (.dict [("system_ns", sns), ("soa", soa)])).1 =
          .recordUpdateError ("Unable to add TXT record for " ++ domain ++ ": " ++ vn) ∧
        (del_txt_record (fun _ => some (.dict r)) domain vn v ttl
            (.dict [("system_ns", sns), ("soa", soa)])).1 =
          .recordUpdateError ("Unable to remove TXT record for " ++ domain ++ ": " ++ vn)) ∧
      (∀ txt, List.lookup "text" st = some (.str txt) →
        (add_txt_record (fun _ => some (.dict r)) domain vn v ttl
            (.dict [("system_ns", sns), ("soa", soa)])).1 =
          .recordUpdateError ("Unable to add TXT record for " ++ domain ++ ": " ++ vn ++
            "\n" ++ txt) ∧
        (del_txt_record (fun _ => some (.dict r)) domain vn v ttl
            (.dict [("system_ns", sns), ("soa", soa)])).1 =
          .recordUpdateError ("Unable to remove TXT record for " ++ domain ++ ": " ++ vn ++
            "\n" ++ txt))) := by
  intro domain vn v ttl sns soa r st ty hst hty hne
  have hcv : _current_value (PyVal.dict [("system_ns", sns), ("soa", soa)]) domain vn v =
      .ok none := by
    simp [_current_value, pyIn, List.lookup]
  have hsns : getItem (PyVal.dict [("system_ns", sns), ("soa", soa)]) "system_ns" = .ok sns := by
    simp [getItem, List.lookup]
  have hsoa : getItem (PyVal.dict [("system_ns", sns), ("soa", soa)]) "soa" = .ok soa := by
    simp [getItem, List.lookup]
  have hadd : (add_txt_record (fun _ => some (.dict r)) domain vn v ttl
      (.dict [("system_ns", sns), ("soa", soa)])).1 =
      update_check ("Unable to add TXT record for " ++ domain ++ ": " ++ vn)
        (some (.dict r)) := by
    simp [add_txt_record, hcv, hsns, hsoa]
  have hdel : (del_txt_record (fun _ => some (.dict r)) domain vn v ttl
      (.dict [("system_ns", sns), ("soa", soa)])).1 =
      update_check ("Unable to remove TXT record for " ++ domain ++ ": " ++ vn)
        (some (.dict r)) := by
    simp [del_txt_record, hsns]
  constructor
  · intro htext
    rw [hadd, hdel]
    exact ⟨(update_check_failure _ r st ty hst hty hne).1 htext,
      (update_check_failure _ r st ty hst hty hne).1 htext⟩
  · intro txt htext
    rw [hadd, hdel]
    exact ⟨(update_check_failure _ r st ty hst hty hne).2 txt htext,
      (update_check_failure _ r st ty hst hty hne).2 txt htext⟩

/-- C8 witness: a gateway reply with `status.type = "error"` and
`status.text = "Quota exceeded"` makes both operations fail with a
record-update error whose message contains the provider text. -/
theorem update_failure_record_update_error_witness :
    (add_txt_record (fun _ => some (.dict [("status",
        .dict [("type", .str "error"), ("text", .str "Quota exceeded")])]))
      "example.com" "_acme-challenge.example.com" "TOKEN" 60
      (.dict [("system_ns", .str "a.ns.de"), ("soa", .null)])).1 =
      .recordUpdateError ("Unable to add TXT record for " ++ "example.com" ++ ": " ++
        "_acme-challenge.example.com" ++ "\n" ++ "Quota exceeded") ∧
    (del_txt_record (fun _ => some (.dict [("status",
        .dict [("type", .str "error"), ("text", .str "Quota exceeded")])]))
      "example.com" "_acme-challenge.example.com" "TOKEN" 60
      (.dict [("system_ns", .str "a.ns.de"), ("soa", .null)])).1 =
      .recordUpdateError ("Unable to remove TXT record for " ++ "example.com" ++ ": " ++
        "_acme-challenge.example.com" ++ "\n" ++ "Quota exceeded") :=
  (update_failure_record_update_error "example.com" "_acme-challenge.example.com" "TOKEN" 60
    (.str "a.ns.de") .null
    [("status", .dict [("type", .str "error"), ("text", .str "Quota exceeded")])]
    [("type", .str "error"), ("text", .str "Quota exceeded")]
    (.str "error") rfl rfl rfl).2 "Quota exceeded" rfl

/-! ## The tag-grouping characterization of `unmarshal` (claims C4, C5, C7) -/

theorem unmarshal_ne_list (e : XmlEl) (l : List PyVal) : unmarshal e ≠ PyVal.list l := by
  obtain ⟨tg, txt, cs⟩ := e
  cases txt with
  | some t => rw [unmarshal]; intro h; cases h
  | none =>
      cases cs with
      | nil => rw [unmarshal]; intro h; cases h
      | cons c cs' => rw [unmarshal]; intro h; cases h

theorem unmarshalFold_cons (acc : List (String × PyVal)) (c : XmlEl) (cs : List XmlEl) :
    unmarshalFold acc (c :: cs) = unmarshalFold (insertChild acc c.tag (unmarshal c)) cs := rfl

theorem unmarshalFold_snoc (x : XmlEl) :
    ∀ (cs : List XmlEl) (acc : List (String × PyVal)),
      unmarshalFold acc (cs ++ [x]) = insertChild (unmarshalFold acc cs) x.tag (unmarshal x) := by
  intro cs
  induction cs with
  | nil => intro acc; rfl
  | cons c cs' ih => intro acc; rw [List.cons_append, unmarshalFold_cons, unmarshalFold_cons, ih]

theorem collapseStep_collapse (g : List PyVal) (v : PyVal) (hne : g ≠ [])
    (hnl : ∀ u ∈ g, ∀ l, u ≠ PyVal.list l) :
    collapseStep (collapsePy g) v = collapsePy (g ++ [v]) := by
  match g, hne with
  | [u], _ =>
      have hu := hnl u (by simp)
      cases u with
      | list l => exact absurd rfl (hu l)
      | null => rfl
      | str s => rfl
      | int n => rfl
      | dict kvs => rfl
      | obj kvs => rfl
      | other r => rfl
  | u1 :: u2 :: g', _ =>
      rfl

theorem mem_keysInOrder : ∀ (cs : List XmlEl) (t : String),
    t ∈ keysInOrder cs ↔ ∃ c ∈ cs, c.tag = t := by
  intro cs
  induction cs with
  | nil => intro t; simp [keysInOrder]
  | cons c cs' ih =>
      intro t
      rw [keysInOrder]
      constructor
      · intro h
        rcases List.mem_cons.mp h with heq | hmem
        · exact ⟨c, by simp, heq.symm⟩
        · have := (List.mem_filter.mp hmem).1
          obtain ⟨c', hc', ht⟩ := (ih t).mp this
          exact ⟨c', List.mem_cons_of_mem _ hc', ht⟩
      · intro ⟨c', hc', ht⟩
        rcases List.mem_cons.mp hc' with heq | hmem
        · subst heq
          rw [ht]
          exact List.mem_cons_self _ _
        · by_cases hct : t = c.tag
          · rw [hct]; exact List.mem_cons_self _ _
          · refine List.mem_cons_of_mem _ (List.mem_filter.mpr ⟨(ih t).mpr ⟨c', hmem, ht⟩, ?_⟩)
            simp [hct]

theorem keysInOrder_ne_nil (c : XmlEl) (cs : List XmlEl) :
    keysInOrder (c :: cs) ≠ [] := by
  rw [keysInOrder]
  simp

theorem keysInOrder_snoc_not_mem (x : XmlEl) :
    ∀ cs : List XmlEl, (∀ c ∈ cs, c.tag ≠ x.tag) →
      keysInOrder (cs ++ [x]) = keysInOrder cs ++ [x.tag] := by
  intro cs
  induction cs with
  | nil => intro _; simp [keysInOrder]
  | cons c cs' ih =>
      intro h
      have hcx : x.tag ≠ c.tag := fun hh => h c (by simp) hh.symm
      rw [List.cons_append, keysInOrder, keysInOrder,
        ih (fun c2 h2 => h c2 (List.mem_cons_of_mem _ h2)), List.filter_append]
      simp [hcx]

theorem keysInOrder_snoc_mem (x : XmlEl) :
    ∀ cs : List XmlEl, (∃ c ∈ cs, c.tag = x.tag) →
      keysInOrder (cs ++ [x]) = keysInOrder cs := by
  intro cs
  induction cs with
  | nil => intro h; simp at h
  | cons c cs' ih =>
      intro h
      rw [List.cons_append, keysInOrder, keysInOrder]
      obtain ⟨c', hc', ht⟩ := h
      rcases List.mem_cons.mp hc' with heq | hmem
      · subst heq
        by_cases hrest : ∃ c2 ∈ cs', c2.tag = x.tag
        · rw [ih hrest]
        · have hnot : ∀ c2 ∈ cs', c2.tag ≠ x.tag := by
            intro c2 h2 hcon
            exact hrest ⟨c2, h2, hcon⟩
          rw [keysInOrder_snoc_not_mem x cs' hnot, List.filter_append]
          simp [ht]
      · rw [ih ⟨c', hmem, ht⟩]

theorem lookup_map_graph_mem (f : String → PyVal) :
    ∀ (ks : List String) (t : String), t ∈ ks →
      List.lookup t (ks.map (fun k => (k, f k))) = some (f t) := by
  intro ks
  induction ks with
  | nil => intro t h; simp at h
  | cons k ks' ih =>
      intro t h
      by_cases hk : t = k
      · subst hk
        simp [List.lookup]
      · rcases List.mem_cons.mp h with heq | hmem
        · exact absurd heq hk
        · rw [List.map_cons, List.lookup, beq_false_of_ne hk]
          exact ih t hmem

theorem lookup_map_graph_not_mem (f : String → PyVal) :
    ∀ (ks : List String) (t : String), t ∉ ks →
      List.lookup t (ks.map (fun k => (k, f k))) = none := by
  intro ks
  induction ks with
  | nil => intro t _; rfl
  | cons k ks' ih =>
      intro t h
      have hk : t ≠ k := fun hh => h (hh ▸ List.mem_cons_self _ _)
      rw [List.map_cons, List.lookup, beq_false_of_ne hk]
      exact ih t (fun hh => h (List.mem_cons_of_mem _ hh))

theorem groupVal_snoc_ne (cs : List XmlEl) (x : XmlEl) (t : String) (h : x.tag ≠ t) :
    groupVal (cs ++ [x]) t = groupVal cs t := by
  rw [groupVal, groupVal, List.filter_append]
  have : (cs ++ [x]).filter (tagMatches t) = cs.filter (tagMatches t) := by
    rw [List.filter_append]
    simp [tagMatches, h]
  simp [tagMatches, h]

theorem groupVal_snoc_eq (cs : List XmlEl) (x : XmlEl) :
    groupVal (cs ++ [x]) x.tag =
      collapsePy (((cs.filter (tagMatches x.tag)).map unmarshal) ++ [unmarshal x]) := by
  rw [groupVal, List.filter_append]
  simp [tagMatches]

theorem insert_groupDict (cs : List XmlEl) (x : XmlEl) :
    insertChild (groupDict cs) x.tag (unmarshal x) = groupDict (cs ++ [x]) := by
  by_cases hmem : x.tag ∈ keysInOrder cs
  · have hlk : List.lookup x.tag (groupDict cs) = some (groupVal cs x.tag) :=
      lookup_map_graph_mem _ _ _ hmem
    simp only [insertChild, hlk]
    rw [groupDict, groupDict, keysInOrder_snoc_mem x cs ((mem_keysInOrder cs x.tag).mp hmem),
      List.map_map]
    apply List.map_congr_left
    intro t ht
    by_cases hteq : t = x.tag
    · rw [hteq] at ht ⊢
      obtain ⟨c', hc', htag⟩ := (mem_keysInOrder cs x.tag).mp ht
      have hc'f : c' ∈ cs.filter (tagMatches x.tag) :=
        List.mem_filter.mpr ⟨hc', by simp [tagMatches, htag]⟩
      have hfne : cs.filter (tagMatches x.tag) ≠ [] := List.ne_nil_of_mem hc'f
      have hg : (cs.filter (tagMatches x.tag)).map unmarshal ≠ [] := by
        intro hnil
        exact hfne (List.map_eq_nil_iff.mp hnil)
      have hnl : ∀ u ∈ (cs.filter (tagMatches x.tag)).map unmarshal, ∀ l, u ≠ PyVal.list l := by
        intro u hu l
        obtain ⟨e', _, rfl⟩ := List.mem_map.mp hu
        exact unmarshal_ne_list e' l
      simp only [Function.comp_apply, if_pos rfl]
      rw [groupVal_snoc_eq, groupVal, collapseStep_collapse _ _ hg hnl]
      simp
    · simp only [Function.comp_apply, if_neg hteq]
      rw [groupVal_snoc_ne cs x t (fun hh => hteq hh.symm)]
  · have hlk : List.lookup x.tag (groupDict cs) = none :=
      lookup_map_graph_not_mem _ _ _ hmem
    simp only [insertChild, hlk]
    have hnot : ∀ c ∈ cs, c.tag ≠ x.tag := by
      intro c hc hcon
      exact hmem ((mem_keysInOrder cs x.tag).mpr ⟨c, hc, hcon⟩)
    rw [groupDict, groupDict, keysInOrder_snoc_not_mem x cs hnot, List.map_append]
    congr 1
    · apply List.map_congr_left
      intro t ht
      have hxt : x.tag ≠ t := fun hh => hmem (hh ▸ ht)
      rw [groupVal_snoc_ne cs x t hxt]
    · have hf : cs.filter (tagMatches x.tag) = [] := by
        rw [List.filter_eq_nil_iff]
        intro c hc
        simp [tagMatches, hnot c hc]
      simp [groupVal_snoc_eq, hf, collapsePy]

theorem unmarshalFold_groupDict : ∀ cs : List XmlEl, unmarshalFold [] cs = groupDict cs := by
  intro cs
  induction cs using List.reverseRecOn with
  | nil => rfl
  | append_singleton cs x ih => rw [unmarshalFold_snoc, ih, insert_groupDict]

/-- `unmarshal` on a textless element with children produces exactly the
tag-grouped dict. -/
theorem unmarshal_children (tg : String) :
    ∀ cs : List XmlEl, cs ≠ [] →
      unmarshal (.el tg none cs) = .dict (groupDict cs) := by
  intro cs hne
  cases cs with
  | nil => exact absurd rfl hne
  | cons c cs' =>
      rw [unmarshal, ← unmarshalFold_cons, unmarshalFold_groupDict]

/-- C4 (amended): for every XML element with no text and at least one child,
`unmarshal` builds a Map by folding the children in document order with
tag-grouping: the dict is exactly `groupDict` (keys in first-occurrence
order), and each present tag maps to the collapse of its same-tag children's
unmarshalled values in document order — the bare value for a single
occurrence, the n-element list for n ≥ 2 occurrences (a repeat wraps the
existing non-list entry in a one-element list before appending). An element
whose text is not `None` returns the text instead, see the counterexample. -/
theorem unmarshal_tag_grouping :
    ∀ (tg : String) (cs : List XmlEl), cs ≠ [] →
      unmarshal (.el tg none cs) = .dict (groupDict cs) ∧
      (∀ t, (∃ c ∈ cs, c.tag = t) →
        List.lookup t (groupDict cs) =
          some (collapsePy ((cs.filter (tagMatches t)).map unmarshal))) := by
  intro tg cs hne
  refine ⟨unmarshal_children tg cs hne, ?_⟩
  intro t hex
  have hmem : t ∈ keysInOrder cs := (mem_keysInOrder cs t).mpr hex
  rw [groupDict, lookup_map_graph_mem _ _ _ hmem, groupVal]

/-- C4 witness: one `rr` child yields a bare value, two `rr` children yield a
two-element list, three a three-element list. -/
theorem unmarshal_tag_grouping_witness :
    unmarshal (.el "zone" none [.el "rr" (some "a") []]) = .dict [("rr", .str "a")] ∧
    unmarshal (.el "zone" none [.el "rr" (some "a") [], .el "rr" (some "b") []]) =
      .dict [("rr", .list [.str "a", .str "b"])] ∧
    unmarshal (.el "zone" none
        [.el "rr" (some "a") [], .el "rr" (some "b") [], .el "rr" (some "c") []]) =
      .dict [("rr", .list [.str "a", .str "b", .str "c"])] := by
  refine ⟨?_, ?_, ?_⟩
  · exact ((unmarshal_tag_grouping "zone" [.el "rr" (some "a") []] (by simp)).1).trans (by rfl)
  · exact ((unmarshal_tag_grouping "zone" [.el "rr" (some "a") [], .el "rr" (some "b") []]
      (by simp)).1).trans (by rfl)
  · exact ((unmarshal_tag_grouping "zone"
      [.el "rr" (some "a") [], .el "rr" (some "b") [], .el "rr" (some "c") []]
      (by simp)).1).trans (by rfl)

/-- C4 counterexample: an element that has children but also a non-`None`
text does not build a Map at all: `unmarshal` returns the text scalar, since
the text check comes first. -/
theorem unmarshal_text_with_children :
    unmarshal (.el "a" (some "hi") [.el "b" (some "x") []]) = .str "hi" := rfl

/-! ## The production invariant of `unmarshal` (claim C5) -/

theorem producedOKList_of_forall :
    ∀ xs : List PyVal, (∀ v ∈ xs, producedOK v = true) → producedOKList xs = true := by
  intro xs
  induction xs with
  | nil => intro _; rfl
  | cons v r ih =>
      intro h
      rw [producedOKList, h v (by simp), ih (fun u hu => h u (List.mem_cons_of_mem _ hu))]
      rfl

theorem producedOKFields_of_forall :
    ∀ kvs : List (String × PyVal), (∀ kv ∈ kvs, producedOK kv.2 = true) →
      producedOKFields kvs = true := by
  intro kvs
  induction kvs with
  | nil => intro _; rfl
  | cons kv r ih =>
      intro h
      obtain ⟨k, v⟩ := kv
      rw [producedOKFields, h (k, v) (by simp), ih (fun u hu => h u (List.mem_cons_of_mem _ hu))]
      rfl

theorem noEmptyTextList_forall :
    ∀ cs : List XmlEl, noEmptyTextList cs = true → ∀ c ∈ cs, noEmptyText c = true := by
  intro cs
  induction cs with
  | nil => intro _ c hc; simp at hc
  | cons c0 r ih =>
      intro h c hc
      rw [noEmptyTextList, Bool.and_eq_true] at h
      rcases List.mem_cons.mp hc with heq | hmem
      · rw [heq]; exact h.1
      · exact ih h.2 c hmem

theorem producedOK_unmarshal_aux :
    ∀ (n : Nat) (e : XmlEl), sizeOf e ≤ n → noEmptyText e = true →
      producedOK (unmarshal e) = true := by
  intro n
  induction n with
  | zero =>
      intro e h _
      exfalso
      obtain ⟨tg, txt, cs⟩ := e
      simp [XmlEl.el.sizeOf_spec] at h
  | succ n ih =>
      intro e hsz hne
      obtain ⟨tg, txt, cs⟩ := e
      rw [noEmptyText, Bool.and_eq_true] at hne
      obtain ⟨hnetxt, hnelist⟩ := hne
      cases txt with
      | some t =>
          rw [unmarshal, producedOK]
          simp only [bne_iff_ne, ne_eq, Option.some.injEq] at hnetxt
          cases hie : t.isEmpty with
          | false => rfl
          | true => exact absurd ((String.isEmpty_iff t).mp hie) hnetxt
      | none =>
          cases cs with
          | nil => rw [unmarshal]; rfl
          | cons c cs' =>
              rw [unmarshal_children tg _ (by simp), producedOK]
              have hlen : groupDict (c :: cs') ≠ [] := by
                rw [groupDict]
                intro hh
                exact keysInOrder_ne_nil c cs' (List.map_eq_nil_iff.mp hh)
              have hfields : producedOKFields (groupDict (c :: cs')) = true := by
                apply producedOKFields_of_forall
                intro kv hkv
                rw [groupDict] at hkv
                obtain ⟨t, htmem, rfl⟩ := List.mem_map.mp hkv
                have hals : ∀ u ∈ ((c :: cs').filter (tagMatches t)).map unmarshal,
                    producedOK u = true := by
                  intro u hu
                  obtain ⟨e', he', rfl⟩ := List.mem_map.mp hu
                  have he'cs : e' ∈ c :: cs' := (List.mem_filter.mp he').1
                  have hsz' : sizeOf e' ≤ n := by
                    have h1 : sizeOf e' < sizeOf (c :: cs') := List.sizeOf_lt_of_mem he'cs
                    have h2 : sizeOf (XmlEl.el tg none (c :: cs')) ≤ n + 1 := hsz
                    simp only [XmlEl.el.sizeOf_spec] at h2
                    omega
                  exact ih e' hsz' (noEmptyTextList_forall _ hnelist e' he'cs)
                obtain ⟨c0, hc0, htag⟩ := (mem_keysInOrder _ t).mp htmem
                have hc0f : c0 ∈ (c :: cs').filter (tagMatches t) :=
                  List.mem_filter.mpr ⟨hc0, by simp [tagMatches, htag]⟩
                show producedOK (groupVal (c :: cs') t) = true
                rw [groupVal]
                cases hg : ((c :: cs').filter (tagMatches t)).map unmarshal with
                | nil =>
                    exfalso
                    have hfnil : List.filter (tagMatches t) (c :: cs') = [] :=
                      List.map_eq_nil_iff.mp hg
                    rw [hfnil] at hc0f
                    simp at hc0f
                | cons v vs =>
                    cases vs with
                    | nil =>
                        simp only [collapsePy]
                        exact hals v (by rw [hg]; simp)
                    | cons v2 vs2 =>
                        rw [collapsePy, producedOK]
                        · have hlst : producedOKList (v :: v2 :: vs2) = true := by
                            apply producedOKList_of_forall
                            intro u hu
                            exact hals u (by rw [hg]; exact hu)
                          simp [hlst]
                        · intro u hcon
                          simp at hcon
              simp only [Bool.and_eq_true]
              constructor
              · cases hgd : groupDict (c :: cs') with
                | nil => exact absurd hgd hlen
                | cons a b => simp
              · exact hfields

/-- C5 (amended): on elements without empty-string texts (ElementTree parsing
never produces one), every value `unmarshal` produces is a non-empty scalar,
the null no-value, a list of at least one value, or a dict of at least one
entry, recursively; and an element with no text and no children unmarshals to
null, which propagates to the enclosing Map as a present entry whose value is
null — never as an empty container, but also never as an absent field. -/
theorem unmarshal_produced_invariant :
    (∀ e : XmlEl, noEmptyText e = true → producedOK (unmarshal e) = true) ∧
    (∀ (tg : String) (cs : List XmlEl) (t : String), cs ≠ [] →
      cs.filter (tagMatches t) = [.el t none []] →
      unmarshal (.el tg none cs) = .dict (groupDict cs) ∧
      List.lookup t (groupDict cs) = some PyVal.null) := by
  constructor
  · intro e hne
    exact producedOK_unmarshal_aux (sizeOf e) e le_rfl hne
  · intro tg cs t hne hf
    refine ⟨unmarshal_children tg cs hne, ?_⟩
    have hmemf : XmlEl.el t none [] ∈ cs.filter (tagMatches t) := by
      rw [hf]
      simp
    have hmem : t ∈ keysInOrder cs :=
      (mem_keysInOrder cs t).mpr ⟨XmlEl.el t none [], (List.mem_filter.mp hmemf).1, rfl⟩
    rw [groupDict, lookup_map_graph_mem _ _ _ hmem, groupVal, hf]
    rfl

/-- C5 witness: the invariant on a concrete parsed-shaped tree, and the
present-null entry produced by an empty `rr` child next to a `soa` sibling. -/
theorem unmarshal_produced_invariant_witness :
    producedOK (unmarshal (.el "response" none
      [.el "result" none [.el "status" (some "ok") []]])) = true ∧
    unmarshal (.el "zone" none [.el "rr" none [], .el "soa" (some "x") []]) =
      .dict [("rr", PyVal.null), ("soa", .str "x")] ∧
    List.lookup "rr" (groupDict [.el "rr" none [], .el "soa" (some "x") []]) =
      some PyVal.null := by
  refine ⟨unmarshal_produced_invariant.1 _ (by rfl), ?_, ?_⟩
  · exact ((unmarshal_produced_invariant.2 "zone" [.el "rr" none [], .el "soa" (some "x") []]
      "rr" (by simp) (by rfl)).1).trans (by rfl)
  · exact (unmarshal_produced_invariant.2 "zone" [.el "rr" none [], .el "soa" (some "x") []]
      "rr" (by simp) (by rfl)).2

/-- C5 counterexample: an element with no text and no children does not
propagate to the enclosing Map as an absent field: the parent unmarshals to a
dict with a present entry holding null (Python `{'rr': None}`). -/
theorem unmarshal_empty_child_null_entry :
    unmarshal (.el "zone" none [.el "rr" none []]) = .dict [("rr", .null)] := rfl

/-! ## Round-trip machinery (claim C7) -/

theorem map_update_not_key (t : String) (val : PyVal) :
    ∀ pre : List (String × PyVal), (∀ p ∈ pre, p.1 ≠ t) →
      pre.map (fun kv => if kv.1 = t then (t, val) else kv) = pre := by
  intro pre
  induction pre with
  | nil => intro _; rfl
  | cons p rest ih =>
      intro h
      rw [List.map_cons, if_neg (h p (by simp)), ih (fun q hq => h q (List.mem_cons_of_mem _ hq))]

theorem unmarshalFold_same_tag (t : String) :
    ∀ (es : List XmlEl), (∀ e ∈ es, e.tag = t) →
      ∀ (rest : List XmlEl) (pre : List (String × PyVal)) (w : PyVal),
        List.lookup t pre = none →
        unmarshalFold (pre ++ [(t, w)]) (es ++ rest) =
          unmarshalFold (pre ++ [(t, extendVal w (es.map unmarshal))]) rest := by
  intro es
  induction es with
  | nil =>
      intro _ rest pre w _
      rw [List.nil_append, List.map_nil, extendVal]
  | cons e es' ih =>
      intro hts rest pre w hpre
      have htag : e.tag = t := hts e (by simp)
      rw [List.cons_append, unmarshalFold_cons, htag]
      have hlk : List.lookup t (pre ++ [(t, w)]) = some w := by
        rw [lookup_append_none _ _ _ hpre]
        simp [List.lookup]
      have hins : insertChild (pre ++ [(t, w)]) t (unmarshal e) =
          pre ++ [(t, collapseStep w (unmarshal e))] := by
        simp only [insertChild, hlk]
        rw [List.map_append]
        congr 1
        · exact map_update_not_key t _ pre ((lookup_none_iff t pre).mp hpre)
        · simp
      rw [hins,
        ih (fun e2 h2 => hts e2 (List.mem_cons_of_mem _ h2)) rest pre _ hpre,
        List.map_cons, extendVal]

theorem extendVal_list : ∀ (vs l : List PyVal),
    extendVal (.list l) vs = .list (l ++ vs) := by
  intro vs
  induction vs with
  | nil => intro l; rw [extendVal]; simp
  | cons v vs' ih =>
      intro l
      rw [extendVal, collapseStep, ih]
      simp

theorem extendVal_collapse (v : PyVal) (hnl : ∀ l, v ≠ PyVal.list l) :
    ∀ vs : List PyVal, extendVal v vs = collapsePy (v :: vs) := by
  intro vs
  cases vs with
  | nil => rw [extendVal, collapsePy]
  | cons v2 vs2 =>
      rw [extendVal]
      have hcs : collapseStep v v2 = .list [v, v2] := by
        cases v with
        | list l => exact absurd rfl (hnl l)
        | null => rfl
        | str s => rfl
        | int n => rfl
        | dict kvs => rfl
        | obj kvs => rfl
        | other r => rfl
      rw [hcs, extendVal_list]
      have : collapsePy (v :: v2 :: vs2) = .list (v :: v2 :: vs2) := by
        rw [collapsePy]
        intro u hcon
        simp at hcon
      rw [this]
      simp

theorem fold_block (t : String) (els rest : List XmlEl) (acc : List (String × PyVal))
    (hne : els ≠ []) (hts : ∀ e ∈ els, e.tag = t) (hacc : List.lookup t acc = none) :
    unmarshalFold acc (els ++ rest) =
      unmarshalFold (acc ++ [(t, collapsePy (els.map unmarshal))]) rest := by
  cases els with
  | nil => exact absurd rfl hne
  | cons e els' =>
      rw [List.cons_append, unmarshalFold_cons, hts e (by simp)]
      have hins : insertChild acc t (unmarshal e) = acc ++ [(t, unmarshal e)] := by
        simp only [insertChild, hacc]
      rw [hins,
        unmarshalFold_same_tag t els' (fun e2 h2 => hts e2 (List.mem_cons_of_mem _ h2))
          rest acc (unmarshal e) hacc,
        extendVal_collapse (unmarshal e) (unmarshal_ne_list e), List.map_cons]

theorem insertChild_ne_nil (acc : List (String × PyVal)) (name : String) (value : PyVal) :
    insertChild acc name value ≠ [] := by
  cases hl : List.lookup name acc with
  | none =>
      simp only [insertChild, hl]
      simp
  | some w =>
      simp only [insertChild, hl]
      cases acc with
      | nil => simp [List.lookup] at hl
      | cons p rest => simp

theorem unmarshalFold_ne_nil :
    ∀ (cs : List XmlEl) (acc : List (String × PyVal)), (acc ≠ [] ∨ cs ≠ []) →
      unmarshalFold acc cs ≠ [] := by
  intro cs
  induction cs with
  | nil =>
      intro acc h
      rcases h with h | h
      · exact h
      · exact absurd rfl h
  | cons c cs' ih =>
      intro acc _
      rw [unmarshalFold_cons]
      exact ih _ (Or.inl (insertChild_ne_nil acc c.tag (unmarshal c)))

theorem stripVal_some_collapse :
    ∀ (v w : PyVal), stripVal v = some w → w = collapsePy (imageElems v) := by
  intro v w h
  cases v with
  | null => simp [stripVal] at h
  | str s =>
      rw [stripVal] at h
      rw [← Option.some.inj h]
      rw [imageElems, stripVal, collapsePy]
      intro l hh
      cases hh
  | int n =>
      rw [stripVal] at h
      rw [← Option.some.inj h]
      rw [imageElems, stripVal, collapsePy]
      intro l hh
      cases hh
  | list xs =>
      cases xs with
      | nil => simp [stripVal] at h
      | cons x r =>
          rw [stripVal] at h
          rw [← Option.some.inj h, imageElems]
  | dict kvs =>
      rw [stripVal] at h
      rw [← Option.some.inj h]
      rw [imageElems, stripVal, collapsePy]
      intro l hh
      cases hh
  | obj kvs =>
      rw [stripVal] at h
      rw [← Option.some.inj h]
      rw [imageElems, stripVal, collapsePy]
      intro l hh
      cases hh
  | other r => simp [stripVal] at h

theorem regularItem_cases (x : PyVal) (h : regularItem x = true) :
    regularVal x = true ∧ ∀ xs, x ≠ PyVal.list xs := by
  cases x with
  | str s => exact ⟨rfl, fun xs hh => by cases hh⟩
  | int n => exact ⟨rfl, fun xs hh => by cases hh⟩
  | dict kvs =>
      rw [regularItem] at h
      exact ⟨by rw [regularVal]; exact h, fun xs hh => by cases hh⟩
  | null => simp [regularItem] at h
  | list l => simp [regularItem] at h
  | obj kvs => simp [regularItem] at h
  | other r => simp [regularItem] at h

theorem regularItem_stripVal_isSome (x : PyVal) (h : regularItem x = true) :
    ∃ w, stripVal x = some w := by
  cases x with
  | str s => exact ⟨_, rfl⟩
  | int n => exact ⟨_, rfl⟩
  | dict kvs => exact ⟨_, rfl⟩
  | null => simp [regularItem] at h
  | list l => simp [regularItem] at h
  | obj kvs => simp [regularItem] at h
  | other r => simp [regularItem] at h

theorem imageElems_nil_iff :
    ∀ v : PyVal, (v = PyVal.null ∨ regularVal v = true) →
      (imageElems v = [] ↔ stripVal v = none) := by
  intro v hv
  cases v with
  | null => simp [imageElems, stripVal]
  | str s => simp [imageElems, stripVal]
  | int n => simp [imageElems, stripVal]
  | dict kvs => simp [imageElems, stripVal]
  | obj kvs => simp [imageElems, stripVal]
  | other r => simp [imageElems, stripVal]
  | list xs =>
      rcases hv with h | h
      · cases h
      · rw [regularVal, Bool.and_eq_true] at h
        obtain ⟨hne, hitems⟩ := h
        cases xs with
        | nil => simp at hne
        | cons x r =>
            rw [imageElems, stripVal]
            rw [stripList]
            rw [regularItems, Bool.and_eq_true] at hitems
            obtain ⟨w, hw⟩ := regularItem_stripVal_isSome x hitems.1
            simp [hw]

theorem marshal_roundtrip_main :
    ∀ n : Nat,
      (∀ v : PyVal, sizeOf v ≤ n → (v = PyVal.null ∨ regularVal v = true) → ∀ tg : String,
        ∃ els, _marshal_value tg v = .ok els ∧ (∀ e ∈ els, e.tag = tg) ∧
          els.map unmarshal = imageElems v) ∧
      (∀ xs : List PyVal, sizeOf xs ≤ n → regularItems xs = true → ∀ tg : String,
        ∃ els, mvList tg xs = .ok els ∧ (∀ e ∈ els, e.tag = tg) ∧
          els.map unmarshal = stripList xs) ∧
      (∀ kvs : List (String × PyVal), sizeOf kvs ≤ n → regularFields kvs = true →
        nodupKeys kvs = true →
        ∃ ch, mvEntries kvs = .ok ch ∧ (∀ e ∈ ch, e.tag ∈ kvs.map Prod.fst) ∧
          ∀ acc : List (String × PyVal),
            (∀ k ∈ kvs.map Prod.fst, List.lookup k acc = none) →
            unmarshalFold acc ch = acc ++ strippedFields kvs) := by
  intro n
  induction n using Nat.strong_induction_on with
  | _ n ih =>
  refine ⟨?_, ?_, ?_⟩
  · intro v hsz hreg tg
    rcases hreg with rfl | hreg
    · exact ⟨[], rfl, by simp, rfl⟩
    · cases v with
      | str s => exact ⟨[.el tg (some s) []], rfl, by simp, rfl⟩
      | int n' => exact ⟨[.el tg (some (intStr n')) []], rfl, by simp, rfl⟩
      | list xs =>
          rw [regularVal, Bool.and_eq_true] at hreg
          obtain ⟨hne, hitems⟩ := hreg
          have hxs : sizeOf xs < n := by
            have hv : sizeOf (PyVal.list xs) ≤ n := hsz
            simp only [PyVal.list.sizeOf_spec] at hv
            omega
          obtain ⟨els, hml, htags, himg⟩ := (ih (sizeOf xs) hxs).2.1 xs le_rfl hitems tg
          refine ⟨els, ?_, htags, ?_⟩
          · rw [_marshal_value]
            exact hml
          · rw [himg]
            rfl
      | dict kvs =>
          rw [regularVal, Bool.and_eq_true] at hreg
          obtain ⟨hnodup, hfields⟩ := hreg
          have hk : sizeOf kvs < n := by
            have hv : sizeOf (PyVal.dict kvs) ≤ n := hsz
            simp only [PyVal.dict.sizeOf_spec] at hv
            omega
          obtain ⟨ch, hme, htags, hfold⟩ := (ih (sizeOf kvs) hk).2.2 kvs le_rfl hfields hnodup
          refine ⟨[.el tg none ch], by simp only [_marshal_value, hme], by simp, ?_⟩
          have hf0 := hfold [] (by intro k _; rfl)
          cases ch with
          | nil =>
              have hsf : strippedFields kvs = [] := by
                have : ([] : List (String × PyVal)) = [] ++ strippedFields kvs := hf0
                simpa using this.symm
              show [unmarshal (.el tg none [])] = imageElems (.dict kvs)
              simp [imageElems, stripVal, hsf, unmarshal]
          | cons c0 ch' =>
              have hsfne : strippedFields kvs ≠ [] := by
                intro hcon
                rw [hcon] at hf0
                exact unmarshalFold_ne_nil (c0 :: ch') [] (Or.inr (by simp)) (by simpa using hf0)
              have hu : unmarshal (.el tg none (c0 :: ch')) = .dict (strippedFields kvs) := by
                rw [unmarshal, ← unmarshalFold_cons]
                simpa using hf0
              show [unmarshal (.el tg none (c0 :: ch'))] = imageElems (.dict kvs)
              rw [hu]
              cases hsf : strippedFields kvs with
              | nil => exact absurd hsf hsfne
              | cons f fs => simp [imageElems, stripVal, hsf]
      | obj kvs => simp [regularVal] at hreg
      | other r => simp [regularVal] at hreg
      | null => exact ⟨[], rfl, by simp, rfl⟩
  · intro xs hsz hitems tg
    cases xs with
    | nil => exact ⟨[], rfl, by simp, rfl⟩
    | cons x r =>
        rw [regularItems, Bool.and_eq_true] at hitems
        obtain ⟨hx, hr⟩ := hitems
        obtain ⟨hxreg, hxnl⟩ := regularItem_cases x hx
        have hszx : sizeOf x < n := by
          have hv : sizeOf (x :: r) ≤ n := hsz
          simp only [List.cons.sizeOf_spec] at hv
          omega
        have hszr : sizeOf r < n := by
          have hv : sizeOf (x :: r) ≤ n := hsz
          simp only [List.cons.sizeOf_spec] at hv
          omega
        obtain ⟨els1, hm1, ht1, hi1⟩ := (ih (sizeOf x) hszx).1 x le_rfl (Or.inr hxreg) tg
        obtain ⟨els2, hm2, ht2, hi2⟩ := (ih (sizeOf r) hszr).2.1 r le_rfl hr tg
        refine ⟨els1 ++ els2, by simp only [mvList, hm1, hm2], ?_, ?_⟩
        · intro e he
          rcases List.mem_append.mp he with h1 | h2
          · exact ht1 e h1
          · exact ht2 e h2
        · rw [List.map_append, hi1, hi2, stripList]
          congr 1
          cases x with
          | str s => rfl
          | int n' => rfl
          | dict d => rfl
          | null => simp [regularItem] at hx
          | list l => exact absurd rfl (hxnl l)
          | obj o => simp [regularItem] at hx
          | other rr => simp [regularItem] at hx
  · intro kvs hsz hfields hnodup
    cases kvs with
    | nil =>
        refine ⟨[], rfl, by simp, ?_⟩
        intro acc _
        rw [unmarshalFold]
        simp [strippedFields]
    | cons kv rest =>
        obtain ⟨k, v⟩ := kv
        rw [regularFields, Bool.and_eq_true] at hfields
        obtain ⟨hv0, hrest⟩ := hfields
        have hv : v = PyVal.null ∨ regularVal v = true := by
          cases v with
          | null => exact Or.inl rfl
          | str s => exact Or.inr (by simpa [isNull] using hv0)
          | int n' => exact Or.inr (by simpa [isNull] using hv0)
          | list l => exact Or.inr (by simpa [isNull] using hv0)
          | dict d => exact Or.inr (by simpa [isNull] using hv0)
          | obj o => exact Or.inr (by simpa [isNull] using hv0)
          | other r' => exact Or.inr (by simpa [isNull] using hv0)
        rw [nodupKeys, List.map_cons, nodupStr, Bool.and_eq_true] at hnodup
        obtain ⟨hknotin, hnodrest⟩ := hnodup
        have hknot : k ∉ rest.map Prod.fst := by simpa using hknotin
        have hszv : sizeOf v < n := by
          have hs : sizeOf ((k, v) :: rest) ≤ n := hsz
          simp only [List.cons.sizeOf_spec, Prod.mk.sizeOf_spec] at hs
          omega
        have hszr : sizeOf rest < n := by
          have hs : sizeOf ((k, v) :: rest) ≤ n := hsz
          simp only [List.cons.sizeOf_spec] at hs
          omega
        obtain ⟨els1, hm1, ht1, hi1⟩ := (ih (sizeOf v) hszv).1 v le_rfl hv k
        obtain ⟨ch2, hm2, ht2, hfold2⟩ :=
          (ih (sizeOf rest) hszr).2.2 rest le_rfl hrest (by rw [nodupKeys]; exact hnodrest)
        refine ⟨els1 ++ ch2, by simp only [mvEntries, hm1, hm2], ?_, ?_⟩
        · intro e he
          rw [List.map_cons]
          rcases List.mem_append.mp he with h1 | h2
          · rw [ht1 e h1]
            exact List.mem_cons_self _ _
          · exact List.mem_cons_of_mem _ (ht2 e h2)
        · intro acc hacc
          have hacck : List.lookup k acc = none := hacc k (by simp)
          cases hels1 : els1 with
          | nil =>
              have himgnil : imageElems v = [] := by
                rw [← hi1, hels1]
                rfl
              have hsv : stripVal v = none := (imageElems_nil_iff v hv).mp himgnil
              rw [List.nil_append,
                hfold2 acc (fun k2 h2 => hacc k2 (by rw [List.map_cons]; exact List.mem_cons_of_mem _ h2)),
                strippedFields, hsv]
              simp
          | cons e1 els1' =>
              rw [hels1] at ht1 hi1
              have hsv : ∃ w, stripVal v = some w := by
                cases hsv0 : stripVal v with
                | none =>
                    have himgnil : imageElems v = [] := (imageElems_nil_iff v hv).mpr hsv0
                    rw [← hi1] at himgnil
                    simp at himgnil
                | some w => exact ⟨w, rfl⟩
              obtain ⟨w, hw⟩ := hsv
              have hwc : w = collapsePy (imageElems v) := stripVal_some_collapse v w hw
              rw [fold_block k (e1 :: els1') ch2 acc (by simp) ht1 hacck, hi1, ← hwc,
                hfold2 (acc ++ [(k, w)]) (by
                  intro k2 h2
                  rw [lookup_append_none _ _ _
                    (hacc k2 (by rw [List.map_cons]; exact List.mem_cons_of_mem _ h2))]
                  have hk2 : k2 ≠ k := fun hh => hknot (hh ▸ h2)
                  simp [List.lookup, beq_false_of_ne hk2]),
                strippedFields, hw]
              simp

/-- C7 (amended): for every root tag and Map of marshallable values — unique
keys; each value null or regular (a string, an int, a non-empty list of
string/int/Map items, or recursively such a Map) — `unmarshal ∘ marshal`
reproduces exactly the fields whose value left a trace on the wire: null
fields are dropped, integers are rendered in decimal string form, one-element
lists collapse to the bare item image, longer lists read back as lists of the
item images, and a Map all of whose fields are null reads back as null (so a
dict of only null values, like an empty list, is not reproduced: the whole
result is then null). In particular every string or int field reads back as
its string form. -/
theorem marshal_unmarshal_round_trip :
    (∀ (tg : String) (kvs : List (String × PyVal)), regularVal (.dict kvs) = true →
      Except.map unmarshal (marshal tg kvs) = .ok (dictImage kvs)) ∧
    (∀ (tg name s : String),
      Except.map unmarshal (marshal tg [(name, .str s)]) = .ok (.dict [(name, .str s)])) ∧
    (∀ (tg name : String) (n : Int),
      Except.map unmarshal (marshal tg [(name, .int n)]) =
        .ok (.dict [(name, .str (intStr n))])) := by
  have main : ∀ (tg : String) (kvs : List (String × PyVal)), regularVal (.dict kvs) = true →
      Except.map unmarshal (marshal tg kvs) = .ok (dictImage kvs) := by
    intro tg kvs hreg
    rw [regularVal, Bool.and_eq_true] at hreg
    obtain ⟨hnodup, hfields⟩ := hreg
    obtain ⟨ch, hme, _, hfold⟩ :=
      (marshal_roundtrip_main (sizeOf kvs)).2.2 kvs le_rfl hfields hnodup
    have hf0 := hfold [] (fun k _ => rfl)
    cases ch with
    | nil =>
        have hsf : strippedFields kvs = [] := by simpa using hf0.symm
        have hdi : dictImage kvs = PyVal.null := by rw [dictImage, hsf]
        simp only [marshal, hme, Except.map, hdi]
        rw [unmarshal]
    | cons c0 ch' =>
        have hsfne : strippedFields kvs ≠ [] := by
          intro hcon
          rw [hcon] at hf0
          exact unmarshalFold_ne_nil (c0 :: ch') [] (Or.inr (by simp)) (by simpa using hf0)
        have hu : unmarshal (.el tg none (c0 :: ch')) = .dict (strippedFields kvs) := by
          rw [unmarshal, ← unmarshalFold_cons]
          simpa using hf0
        simp only [marshal, hme, Except.map]
        rw [hu]
        cases hsf : strippedFields kvs with
        | nil => exact absurd hsf hsfne
        | cons f fs => rw [dictImage, hsf]
  refine ⟨main, ?_, ?_⟩
  · intro tg name s
    have h := main tg [(name, .str s)] (by rfl)
    rw [h]
    rfl
  · intro tg name n
    have h := main tg [(name, .int n)] (by rfl)
    rw [h]
    rfl

/-- C7 witness: a zone-like map with a string field, a null field, a
two-element `rr` list of record maps and an integer ttl reads back with the
null field dropped, the list kept and the integer rendered as a string. -/
theorem marshal_unmarshal_round_trip_witness :
    Except.map unmarshal (marshal "zone" [("name", .str "example.com"), ("soa", .null),
      ("rr", .list [.dict [("name", .str "x"), ("value", .str "1")],
        .dict [("name", .str "y"), ("value", .str "2")]]), ("ttl", .int 60)]) =
      .ok (.dict [("name", .str "example.com"),
        ("rr", .list [.dict [("name", .str "x"), ("value", .str "1")],
          .dict [("name", .str "y"), ("value", .str "2")]]),
        ("ttl", .str "60")]) := by
  have h := marshal_unmarshal_round_trip.1 "zone"
    [("name", .str "example.com"), ("soa", .null),
      ("rr", .list [.dict [("name", .str "x"), ("value", .str "1")],
        .dict [("name", .str "y"), ("value", .str "2")]]), ("ttl", .int 60)] (by rfl)
  rw [h]
  rfl

/-- C7 counterexample: a field holding the empty list is not null, yet it is
not reproduced: the marshalled element has no children at all, so unmarshal
returns null rather than a Map carrying the field. -/
theorem marshal_unmarshal_empty_list_lost :
    Except.map unmarshal (marshal "x" [("a", PyVal.list [])]) = .ok PyVal.null := rfl
